import Mathlib

/-!
Shallow embedding of the billing aggregation engine of
mongo-atlas-billing-exporter (`src/state.rs`), together with proofs of the
specification's claims about it.

Modelling conventions:

* Rust `u64` fields (`total_price_cents` and the invoice totals) are `Nat`;
  the source only ever adds them.
* Rust `f64` fields (`quantity`, `unit_price_dollars`) are idealised as exact
  rationals `ℚ` for the accumulation arithmetic.  IEEE special values matter
  only in the final rate division, which is modelled by the `F64` type below:
  finite values are exact rationals, and division follows IEEE 754 on the
  special cases (division of a nonzero finite value by zero gives a signed
  infinity, `0 / 0` gives `nan`, and so on).
* Rust `String` ordering (byte-wise lexicographic over UTF-8, used by
  `item.end_date > k.end_date`) coincides with code-point lexicographic
  order, modelled by `lexLt` over the character list.
* `chrono::DateTime::parse_from_rfc3339` is an external library function; it
  is abstracted as a parameter `parse : String → Option Int` giving an
  instant on an integer time axis in milliseconds, with `Utc::now()`
  abstracted as `now : Int`.  `chrono::Duration::hours` becomes
  `hoursDuration`.
* The two `HashMap<String, Compressed>` maps are association lists with
  unique keys; a fresh key is appended at the end.  Lookup order is
  irrelevant to the claims, which are stated through `findEntry`.
* `metrics::gauge!` emission is modelled by returning the list of
  (label-tuple, value) pairs the two publication loops would record.
-/

/-- One entry of `lineItems` in the pending-invoice document
(struct `LineItem` in `src/state.rs`). -/
structure LineItem where
  cluster_name : Option String
  created : String
  end_date : String
  quantity : ℚ
  group_name : Option String
  sku : String
  start_date : String
  total_price_cents : Nat
  unit : String
  unit_price_dollars : ℚ
  deriving DecidableEq

/-- The compressed aggregate record (struct `Compressed` in `src/state.rs`). -/
structure Compressed where
  cluster_name : Option String
  quantity : ℚ
  group_name : Option String
  sku : String
  total_price_cents : Nat
  unit : String
  unit_price_dollars : ℚ
  end_date : String
  deriving DecidableEq

/-- The pending-invoice root document (struct `Data` in `src/state.rs`). -/
structure Data where
  amount_billed_cents : Nat
  amount_paid_cents : Nat
  created : String
  credits_cents : Nat
  end_date : String
  id : String
  line_items : List LineItem
  deriving DecidableEq

/-- The error enum of `src/error.rs`, as used by `src/state.rs`:
`NotFound`, `Forbidden`, `Unauthorized` and `UnknownCode` are returned from
the status dispatch in `State::get`, `Hyper` wraps a transport failure, and
`Json` stands for the `serde_json` decode failure converted by `?` in
`State::get_pending`. -/
inductive RestError where
  | NotFound
  | Forbidden
  | Unauthorized
  | UnknownCode
  | Hyper
  | Json
  deriving DecidableEq

/-- IEEE-754 double values as used by the rate computation: an exact finite
rational, the two infinities, or `nan`. -/
inductive F64 where
  | fin : ℚ → F64
  | inf : F64
  | neginf : F64
  | nan : F64
  deriving DecidableEq

/-- IEEE-754 division on `F64`.  Finite arithmetic is exact; the cases the
program can reach are a finite value divided by a finite value (zero divisor
giving `nan` or a signed infinity, as IEEE prescribes) and an infinity or
`nan` flowing through a later division by a positive constant. -/
def F64.div : F64 → F64 → F64
  | F64.fin a, F64.fin b =>
      if b = 0 then
        (if a = 0 then F64.nan else if 0 < a then F64.inf else F64.neginf)
      else F64.fin (a / b)
  | F64.inf, F64.fin b => if 0 ≤ b then F64.inf else F64.neginf
  | F64.neginf, F64.fin b => if 0 ≤ b then F64.neginf else F64.inf
  | F64.fin _, F64.inf => F64.fin 0
  | F64.fin _, F64.neginf => F64.fin 0
  | _, _ => F64.nan

/-- Finiteness of an `F64` value. -/
def F64.isFinite : F64 → Bool
  | F64.fin _ => true
  | _ => false

/-- Byte-wise (equivalently, code-point-wise) lexicographic strict order on
character lists, as Rust's `Ord` on `String` compares the UTF-8 bytes. -/
def lexLt : List Char → List Char → Bool
  | [], [] => false
  | [], _ :: _ => true
  | _ :: _, [] => false
  | a :: as, b :: bs =>
    if a.toNat < b.toNat then true
    else if b.toNat < a.toNat then false
    else lexLt as bs

/-- Rust's `a > b` on `String`. -/
def strGt (a b : String) : Bool := lexLt b.data a.data

/-- The non-strict order induced by `lexLt`, used to state maximality. -/
def strLe (a b : String) : Prop := lexLt b.data a.data = false

/-- `chrono::Duration::hours`, on the millisecond time axis. -/
def hoursDuration (h : Int) : Int := h * 3600000

/-- The grouping key computed at the top of the aggregation loop:
`cluster_name + "_" + sku` when a cluster name is present, else `sku`. -/
def unitKey (item : LineItem) : String :=
  match item.cluster_name with
  | some e => e ++ ("_") ++ item.sku
  | none => item.sku

/-- The `Compressed` value built when a key is first inserted into a map
(the `None` branches of the two `match map.get_mut(&name)` expressions). -/
def seedFrom (item : LineItem) : Compressed :=
  { cluster_name := item.cluster_name
    quantity := item.quantity
    sku := item.sku
    group_name := item.group_name
    total_price_cents := item.total_price_cents
    unit := item.unit
    unit_price_dollars := item.unit_price_dollars
    end_date := item.end_date }

/-- The in-place merge performed when a key is already present (the
`Some(k)` branches): add `total_price_cents` and `quantity`, and replace
`end_date` only when the item's `end_date` is strictly greater. -/
def mergeItem (k : Compressed) (item : LineItem) : Compressed :=
  { k with
    total_price_cents := k.total_price_cents + item.total_price_cents
    quantity := k.quantity + item.quantity
    end_date := if strGt item.end_date k.end_date then item.end_date else k.end_date }

/-- Association-list model of `HashMap<String, Compressed>`. -/
abbrev AggMap := List (String × Compressed)

/-- Keyed lookup (`HashMap::get_mut` viewed as a query). -/
def findEntry : AggMap → String → Option Compressed
  | [], _ => none
  | (k, v) :: rest, name => if k = name then some v else findEntry rest name

/-- Replace the entry stored under `name` by its merge with `item`
(the effect of mutating through `get_mut`). -/
def updateExisting : AggMap → String → LineItem → AggMap
  | [], _, _ => []
  | (k, v) :: rest, name, item =>
    if k = name then (k, mergeItem v item) :: rest
    else (k, v) :: updateExisting rest name item

/-- The accumulate-or-insert step applied to one map for one line item. -/
def addToMap (m : AggMap) (name : String) (item : LineItem) : AggMap :=
  match findEntry m name with
  | some _ => updateExisting m name item
  | none => m ++ [(name, seedFrom item)]

/-- The body of the `for item in data.line_items` loop in
`State::get_metrics`: always accumulate into `map_total`; parse `end_date`
and, only when parsing succeeds and `now - end_date < Duration::hours(30)`,
accumulate into `map_rate`. -/
def processItem (parse : String → Option Int) (now : Int)
    (maps : AggMap × AggMap) (item : LineItem) : AggMap × AggMap :=
  let name := unitKey item
  let mapTotal := addToMap maps.1 name item
  let mapRate :=
    match parse item.end_date with
    | some endDate =>
        if now - endDate < hoursDuration 30 then addToMap maps.2 name item
        else maps.2
    | none => maps.2
  (mapTotal, mapRate)

/-- The whole aggregation pass of `State::get_metrics`, producing
`(map_total, map_rate)`. -/
def aggregate (parse : String → Option Int) (now : Int)
    (items : List LineItem) : AggMap × AggMap :=
  items.foldl (processItem parse now) ([], [])

/-- The label tuple `(cluster_name, group_name, sku)` attached to both
gauges; absent optionals become the empty string. -/
def labelsOf (value : Compressed) : String × String × String :=
  (value.cluster_name.getD (""), value.group_name.getD (""), value.sku)

/-- The publication loop over `map_total`: one
`atlas_billing_item_cents_total` gauge per entry, valued
`total_price_cents as f64`. -/
def publishTotals (m : AggMap) : List ((String × String × String) × F64) :=
  m.map (fun p => (labelsOf p.2, F64.fin (p.2.total_price_cents : ℚ)))

/-- The rate computed for one `map_rate` entry: `total_price_cents as f64 /
quantity / 100.0`, additionally divided by `24.0` unless the unit is
`"GB hours"` or `"server hours"`. -/
def rateOf (value : Compressed) : F64 :=
  if value.unit = ("GB hours") ∨ value.unit = ("server hours") then
    F64.div (F64.div (F64.fin (value.total_price_cents : ℚ)) (F64.fin value.quantity)) (F64.fin 100)
  else
    F64.div (F64.div (F64.div (F64.fin (value.total_price_cents : ℚ)) (F64.fin value.quantity)) (F64.fin 100)) (F64.fin 24)

/-- The publication loop over `map_rate`: one
`atlas_billing_item_cents_rate` gauge per entry. -/
def publishRates (m : AggMap) : List ((String × String × String) × F64) :=
  m.map (fun p => (labelsOf p.2, rateOf p.2))

namespace State

/-- The status dispatch of `State::get`: the match on
`response.status().as_u16()`, with the response carried through on 200. -/
def get {β : Type} (status : Nat) (response : β) : Except RestError β :=
  if status = 404 then Except.error RestError.NotFound
  else if status = 403 then Except.error RestError.Forbidden
  else if status = 401 then Except.error RestError.Unauthorized
  else if status = 200 then Except.ok response
  else Except.error RestError.UnknownCode

/-- `State::get_pending`: fetch via `get`, then decode the body into `Data`
(`serde_json::from_slice`, abstracted as `decode`). -/
def get_pending {β : Type} (status : Nat) (body : β)
    (decode : β → Option Data) : Except RestError Data :=
  match get status body with
  | Except.error e => Except.error e
  | Except.ok b =>
    match decode b with
    | some value => Except.ok value
    | none => Except.error RestError.Json

/-- `State::get_metrics` up to gauge emission: fetch and decode the pending
invoice, then run the aggregation pass over its line items.  The `?` on
`self.get_pending()` makes any fetch error the result of the whole cycle,
with the aggregation loop never entered. -/
def get_metrics {β : Type} (parse : String → Option Int) (now : Int)
    (status : Nat) (body : β) (decode : β → Option Data) :
    Except RestError (AggMap × AggMap) :=
  match get_pending status body decode with
  | Except.error e => Except.error e
  | Except.ok data => Except.ok (aggregate parse now data.line_items)

end State

/-- Specification-side predicate: the freshness test an item must pass to be
accumulated into `map_rate`. -/
def contributesToRates (parse : String → Option Int) (now : Int)
    (item : LineItem) : Bool :=
  match parse item.end_date with
  | some t => decide (now - t < hoursDuration 30)
  | none => false

/-- The line items of `items` grouped under `key`, in document order. -/
def contributing (key : String) (items : List LineItem) : List LineItem :=
  items.filter (fun it => decide (unitKey it = key))

/-- Sum of the `quantity` fields. -/
def sumQty (l : List LineItem) : ℚ :=
  (l.map (fun it => it.quantity)).sum

/-- Sum of the `total_price_cents` fields. -/
def sumPrice (l : List LineItem) : Nat :=
  (l.map (fun it => it.total_price_cents)).sum

/-- Left fold of the source's end-date maximum step over a list of dates. -/
def maxEndStr (e : String) (l : List String) : String :=
  l.foldl (fun a b => if strGt b a then b else a) e

/-- The entry a map holds for a key whose contributing items, in document
order, are `first :: rest`: the seed from `first` merged with each later
item in turn. -/
def buildEntry (first : LineItem) (rest : List LineItem) : Compressed :=
  rest.foldl mergeItem (seedFrom first)

/-- A map is exactly keyed by an item list: a key is absent when no item
groups under it, and otherwise stores the fold of the merges over the
contributing items in document order. -/
def KeyedBy (items : List LineItem) (m : AggMap) : Prop :=
  ∀ key : String,
    (contributing key items = [] → findEntry m key = none) ∧
    (∀ first rest, contributing key items = first :: rest →
      findEntry m key = some (buildEntry first rest))

lemma charToNatInj {a b : Char} (h : a.toNat = b.toNat) : a = b := by
  unfold Char.toNat at h
  exact Char.eq_of_val_eq (UInt32.eq_of_val_eq (Fin.val_injective h))

lemma lexLt_irrefl : ∀ l : List Char, lexLt l l = false := by
  intro l
  induction l with
  | nil => rfl
  | cons a as ih => simp [lexLt, ih]

lemma lexLt_trans : ∀ a b c : List Char,
    lexLt a b = true → lexLt b c = true → lexLt a c = true := by
  intro a
  induction a with
  | nil =>
    intro b c hab hbc
    cases b with
    | nil => cases hab
    | cons y ys =>
      cases c with
      | nil => cases hbc
      | cons z zs => rfl
  | cons x xs ih =>
    intro b c hab hbc
    cases b with
    | nil => cases hab
    | cons y ys =>
      cases c with
      | nil => cases hbc
      | cons z zs =>
        simp only [lexLt] at hab hbc ⊢
        by_cases hxy : x.toNat < y.toNat
        · by_cases hyz : y.toNat < z.toNat
          · simp [Nat.lt_trans hxy hyz]
          · by_cases hzy : z.toNat < y.toNat
            · simp [hyz, hzy] at hbc
            · have hyz2 : y.toNat = z.toNat :=
                le_antisymm (not_lt.mp hzy) (not_lt.mp hyz)
              have hxz : x.toNat < z.toNat := hyz2 ▸ hxy
              simp [hxz]
        · by_cases hyx : y.toNat < x.toNat
          · simp [hxy, hyx] at hab
          · have hxy2 : x.toNat = y.toNat :=
              le_antisymm (not_lt.mp hyx) (not_lt.mp hxy)
            simp [hxy, hyx] at hab
            by_cases hyz : y.toNat < z.toNat
            · have hxz : x.toNat < z.toNat := hxy2 ▸ hyz
              simp [hxz]
            · by_cases hzy : z.toNat < y.toNat
              · simp [hyz, hzy] at hbc
              · have hyz2 : y.toNat = z.toNat :=
                  le_antisymm (not_lt.mp hzy) (not_lt.mp hyz)
                simp [hyz, hzy] at hbc
                have hxz : ¬ x.toNat < z.toNat := by
                  rw [hxy2, hyz2]; exact lt_irrefl _
                have hzx : ¬ z.toNat < x.toNat := by
                  rw [hxy2, hyz2]; exact lt_irrefl _
                simp [hxz, hzx]
                exact ih ys zs hab hbc

lemma lexLt_asymm {a b : List Char} (h : lexLt a b = true) : lexLt b a = false := by
  cases h2 : lexLt b a with
  | false => rfl
  | true =>
    have h3 := lexLt_trans a b a h h2
    rw [lexLt_irrefl] at h3
    cases h3

lemma eq_of_lexLt_false : ∀ {a b : List Char},
    lexLt a b = false → lexLt b a = false → a = b := by
  intro a
  induction a with
  | nil =>
    intro b h1 _
    cases b with
    | nil => rfl
    | cons y ys => cases h1
  | cons x xs ih =>
    intro b h1 h2
    cases b with
    | nil => cases h2
    | cons y ys =>
      by_cases hxy : x.toNat < y.toNat
      · simp [lexLt, hxy] at h1
      · by_cases hyx : y.toNat < x.toNat
        · simp [lexLt, hyx] at h2
        · have hc : x = y :=
            charToNatInj (le_antisymm (not_lt.mp hyx) (not_lt.mp hxy))
          simp only [lexLt, if_neg hxy, if_neg hyx] at h1
          simp only [lexLt, if_neg hyx, if_neg hxy] at h2
          simp [hc, ih h1 h2]

lemma strLe_refl (a : String) : strLe a a := lexLt_irrefl _

lemma strLe_trans {a b c : String} (h1 : strLe a b) (h2 : strLe b c) :
    strLe a c := by
  unfold strLe at h1 h2 ⊢
  cases h3 : lexLt c.data a.data with
  | false => rfl
  | true =>
    cases h4 : lexLt a.data b.data with
    | true =>
      have h5 := lexLt_trans _ _ _ h3 h4
      rw [h2] at h5
      cases h5
    | false =>
      have hab : a.data = b.data := eq_of_lexLt_false h4 h1
      rw [hab] at h3
      rw [h2] at h3
      cases h3

lemma maxStep_le_left (a b : String) : strLe a (if strGt b a then b else a) := by
  cases hg : strGt b a with
  | true =>
    simp only [hg, if_true]
    exact lexLt_asymm hg
  | false =>
    simp only [hg, Bool.false_eq_true, if_false]
    exact strLe_refl a

lemma maxStep_le_right (a b : String) : strLe b (if strGt b a then b else a) := by
  cases hg : strGt b a with
  | true =>
    simp only [hg, if_true]
    exact strLe_refl b
  | false =>
    simp only [hg, Bool.false_eq_true, if_false]
    exact hg

lemma maxEndStr_cons (e b : String) (bs : List String) :
    maxEndStr e (b :: bs) = maxEndStr (if strGt b e then b else e) bs := rfl

lemma maxEndStr_le_self : ∀ (l : List String) (e : String),
    strLe e (maxEndStr e l) := by
  intro l
  induction l with
  | nil => intro e; exact strLe_refl e
  | cons b bs ih =>
    intro e
    rw [maxEndStr_cons]
    exact strLe_trans (maxStep_le_left e b) (ih _)

lemma maxEndStr_le_mem : ∀ (l : List String) (e x : String),
    x ∈ l → strLe x (maxEndStr e l) := by
  intro l
  induction l with
  | nil => intro e x hx; cases hx
  | cons b bs ih =>
    intro e x hx
    rw [maxEndStr_cons]
    cases hx with
    | head => exact strLe_trans (maxStep_le_right e b) (maxEndStr_le_self bs _)
    | tail _ hmem => exact ih _ x hmem

lemma maxEndStr_mem : ∀ (l : List String) (e : String),
    maxEndStr e l = e ∨ maxEndStr e l ∈ l := by
  intro l
  induction l with
  | nil => intro e; exact Or.inl rfl
  | cons b bs ih =>
    intro e
    rw [maxEndStr_cons]
    cases ih (if strGt b e then b else e) with
    | inl heq =>
      by_cases hg : strGt b e = true
      · right
        rw [heq, if_pos hg]
        exact List.mem_cons_self b bs
      · left
        rw [heq, if_neg hg]
    | inr hmem =>
      right
      exact List.mem_cons_of_mem b hmem

lemma findEntry_append_new (m : AggMap) (name : String) (v : Compressed)
    (h : findEntry m name = none) :
    findEntry (m ++ [(name, v)]) name = some v := by
  induction m with
  | nil => simp [findEntry]
  | cons p rest ih =>
    obtain ⟨k, w⟩ := p
    by_cases hk : k = name
    · simp [findEntry, hk] at h
    · simp only [List.cons_append, findEntry, if_neg hk] at h ⊢
      exact ih h

lemma findEntry_append_ne (m : AggMap) (name key : String) (v : Compressed)
    (h : key ≠ name) :
    findEntry (m ++ [(name, v)]) key = findEntry m key := by
  have h2 : name ≠ key := fun hh => h hh.symm
  induction m with
  | nil => simp [findEntry, h2]
  | cons p rest ih =>
    obtain ⟨k, w⟩ := p
    by_cases hk : k = key
    · simp [findEntry, hk]
    · simp [findEntry, hk, ih]

lemma findEntry_update_self (m : AggMap) (name : String) (item : LineItem)
    (c : Compressed) (h : findEntry m name = some c) :
    findEntry (updateExisting m name item) name = some (mergeItem c item) := by
  induction m with
  | nil => cases h
  | cons p rest ih =>
    obtain ⟨k, w⟩ := p
    by_cases hk : k = name
    · simp only [findEntry, if_pos hk] at h
      injection h with h
      subst h
      simp [updateExisting, hk, findEntry]
    · simp only [findEntry, if_neg hk] at h
      simp [updateExisting, hk, findEntry, ih h]

lemma findEntry_update_ne (m : AggMap) (name key : String) (item : LineItem)
    (h : key ≠ name) :
    findEntry (updateExisting m name item) key = findEntry m key := by
  induction m with
  | nil => rfl
  | cons p rest ih =>
    obtain ⟨k, w⟩ := p
    by_cases hk : k = name
    · have hk2 : ¬ (k = key) := by
        rw [hk]
        exact fun hh => h hh.symm
      have hk3 : ¬ (name = key) := fun hh => h hh.symm
      simp [updateExisting, hk, findEntry, hk2, hk3]
    · by_cases hk3 : k = key
      · have hk4 : ¬ (key = name) := by
          rw [← hk3]
          exact hk
        simp [updateExisting, hk, findEntry, hk3, hk4]
      · simp [updateExisting, hk, findEntry, hk3, ih]

lemma findEntry_addToMap_self (m : AggMap) (name : String) (item : LineItem) :
    findEntry (addToMap m name item) name =
      some (match findEntry m name with
            | some c => mergeItem c item
            | none => seedFrom item) := by
  cases h : findEntry m name with
  | some c =>
    simp only [addToMap, h]
    exact findEntry_update_self m name item c h
  | none =>
    simp only [addToMap, h]
    exact findEntry_append_new m name _ h

lemma findEntry_addToMap_ne (m : AggMap) (name key : String) (item : LineItem)
    (h : key ≠ name) :
    findEntry (addToMap m name item) key = findEntry m key := by
  cases h2 : findEntry m name with
  | some c =>
    simp only [addToMap, h2]
    exact findEntry_update_ne m name key item h
  | none =>
    simp only [addToMap, h2]
    exact findEntry_append_ne m name key _ h

lemma contributing_append (key : String) (items : List LineItem) (item : LineItem) :
    contributing key (items ++ [item]) =
      contributing key items ++ (if unitKey item = key then [item] else []) := by
  unfold contributing
  rw [List.filter_append]
  congr 1
  by_cases h : unitKey item = key
  · simp [h]
  · simp [h]

lemma buildEntry_concat (first : LineItem) (rest : List LineItem) (item : LineItem) :
    buildEntry first (rest ++ [item]) = mergeItem (buildEntry first rest) item := by
  simp [buildEntry, List.foldl_append]

lemma keyedBy_nil : KeyedBy [] [] := by
  intro key
  constructor
  · intro _
    rfl
  · intro first rest h
    exact List.noConfusion h

lemma keyedBy_add (items : List LineItem) (m : AggMap) (item : LineItem)
    (h : KeyedBy items m) :
    KeyedBy (items ++ [item]) (addToMap m (unitKey item) item) := by
  intro key
  by_cases hk : unitKey item = key
  · subst hk
    constructor
    · intro hnil
      rw [contributing_append, if_pos rfl] at hnil
      exact absurd hnil (by simp)
    · intro first rest hfr
      rw [contributing_append, if_pos rfl] at hfr
      cases hc : contributing (unitKey item) items with
      | nil =>
        rw [hc, List.nil_append] at hfr
        injection hfr with h1 h2
        subst h1
        subst h2
        have hnone := (h (unitKey item)).1 hc
        simp only [addToMap, hnone]
        exact findEntry_append_new m (unitKey item) (seedFrom item) hnone
      | cons f r =>
        rw [hc, List.cons_append] at hfr
        injection hfr with h1 h2
        subst h1
        subst h2
        have hsome := (h (unitKey item)).2 f r hc
        have hfind := findEntry_addToMap_self m (unitKey item) item
        rw [hsome] at hfind
        rw [hfind, buildEntry_concat]
  · have hne : key ≠ unitKey item := fun hh => hk hh.symm
    constructor
    · intro hnil
      rw [contributing_append, if_neg hk, List.append_nil] at hnil
      rw [findEntry_addToMap_ne m (unitKey item) key item hne]
      exact (h key).1 hnil
    · intro first rest hfr
      rw [contributing_append, if_neg hk, List.append_nil] at hfr
      rw [findEntry_addToMap_ne m (unitKey item) key item hne]
      exact (h key).2 first rest hfr

lemma processItem_fst (parse : String → Option Int) (now : Int)
    (maps : AggMap × AggMap) (item : LineItem) :
    (processItem parse now maps item).1 = addToMap maps.1 (unitKey item) item := rfl

lemma processItem_snd (parse : String → Option Int) (now : Int)
    (maps : AggMap × AggMap) (item : LineItem) :
    (processItem parse now maps item).2 =
      if contributesToRates parse now item then addToMap maps.2 (unitKey item) item
      else maps.2 := by
  cases hp : parse item.end_date with
  | none => simp [processItem, contributesToRates, hp]
  | some t =>
    by_cases hlt : now - t < hoursDuration 30
    · simp [processItem, contributesToRates, hp, hlt]
    · simp [processItem, contributesToRates, hp, hlt]

lemma aggregate_invariant (parse : String → Option Int) (now : Int) :
    ∀ (items P : List LineItem) (m : AggMap × AggMap),
      KeyedBy P m.1 →
      KeyedBy (P.filter (contributesToRates parse now)) m.2 →
      KeyedBy (P ++ items) ((items.foldl (processItem parse now) m).1) ∧
      KeyedBy ((P ++ items).filter (contributesToRates parse now))
        ((items.foldl (processItem parse now) m).2) := by
  intro items
  induction items with
  | nil =>
    intro P m h1 h2
    constructor
    · simpa using h1
    · simpa using h2
  | cons x xs ih =>
    intro P m h1 h2
    simp only [List.foldl_cons]
    have hs1 : KeyedBy (P ++ [x]) ((processItem parse now m x).1) := by
      rw [processItem_fst]
      exact keyedBy_add P m.1 x h1
    have hs2 : KeyedBy ((P ++ [x]).filter (contributesToRates parse now))
        ((processItem parse now m x).2) := by
      rw [processItem_snd, List.filter_append]
      by_cases hc : contributesToRates parse now x = true
      · rw [if_pos hc]
        have hfx : List.filter (contributesToRates parse now) [x] = [x] := by
          simp [List.filter, hc]
        rw [hfx]
        exact keyedBy_add _ m.2 x h2
      · rw [if_neg hc]
        have hc2 : contributesToRates parse now x = false := by
          cases hcc : contributesToRates parse now x
          · rfl
          · exact absurd hcc hc
        have hfx : List.filter (contributesToRates parse now) [x] = [] := by
          simp [List.filter, hc2]
        rw [hfx, List.append_nil]
        exact h2
    have hmain := ih (P ++ [x]) (processItem parse now m x) hs1 hs2
    constructor
    · have hq := hmain.1
      rwa [List.append_assoc, List.singleton_append] at hq
    · have hq := hmain.2
      rwa [List.append_assoc, List.singleton_append] at hq

lemma aggregate_totals_keyed (parse : String → Option Int) (now : Int)
    (items : List LineItem) : KeyedBy items ((aggregate parse now items).1) := by
  have h := aggregate_invariant parse now items [] ([], [])
    keyedBy_nil (by simpa using keyedBy_nil)
  simpa [aggregate] using h.1

lemma aggregate_rates_keyed (parse : String → Option Int) (now : Int)
    (items : List LineItem) :
    KeyedBy (items.filter (contributesToRates parse now))
      ((aggregate parse now items).2) := by
  have h := aggregate_invariant parse now items [] ([], [])
    keyedBy_nil (by simpa using keyedBy_nil)
  simpa [aggregate] using h.2

lemma keyed_findEntry_some {items : List LineItem} {m : AggMap} {key : String}
    {c : Compressed} (h : KeyedBy items m) (hf : findEntry m key = some c) :
    ∃ first rest, contributing key items = first :: rest ∧ c = buildEntry first rest := by
  cases hc : contributing key items with
  | nil =>
    rw [(h key).1 hc] at hf
    cases hf
  | cons f r =>
    refine ⟨f, r, rfl, ?_⟩
    have hs := (h key).2 f r hc
    rw [hs] at hf
    injection hf with hf
    exact hf.symm

lemma foldl_merge_quantity : ∀ (l : List LineItem) (c : Compressed),
    (l.foldl mergeItem c).quantity = c.quantity + sumQty l := by
  intro l
  induction l with
  | nil =>
    intro c
    simp [sumQty]
  | cons x xs ih =>
    intro c
    rw [List.foldl_cons, ih]
    simp [mergeItem, sumQty]
    ring

lemma foldl_merge_price : ∀ (l : List LineItem) (c : Compressed),
    (l.foldl mergeItem c).total_price_cents = c.total_price_cents + sumPrice l := by
  intro l
  induction l with
  | nil =>
    intro c
    simp [sumPrice]
  | cons x xs ih =>
    intro c
    rw [List.foldl_cons, ih]
    simp [mergeItem, sumPrice]
    omega

lemma foldl_merge_frame : ∀ (l : List LineItem) (c : Compressed),
    (l.foldl mergeItem c).cluster_name = c.cluster_name ∧
    (l.foldl mergeItem c).group_name = c.group_name ∧
    (l.foldl mergeItem c).sku = c.sku ∧
    (l.foldl mergeItem c).unit = c.unit ∧
    (l.foldl mergeItem c).unit_price_dollars = c.unit_price_dollars := by
  intro l
  induction l with
  | nil =>
    intro c
    exact ⟨rfl, rfl, rfl, rfl, rfl⟩
  | cons x xs ih =>
    intro c
    rw [List.foldl_cons]
    simpa [mergeItem] using ih (mergeItem c x)

lemma foldl_merge_end : ∀ (l : List LineItem) (c : Compressed),
    (l.foldl mergeItem c).end_date =
      maxEndStr c.end_date (l.map (fun it => it.end_date)) := by
  intro l
  induction l with
  | nil =>
    intro c
    rfl
  | cons x xs ih =>
    intro c
    rw [List.foldl_cons, ih, List.map_cons, maxEndStr_cons]
    rfl

lemma buildEntry_quantity (first : LineItem) (rest : List LineItem) :
    (buildEntry first rest).quantity = sumQty (first :: rest) := by
  rw [buildEntry, foldl_merge_quantity]
  simp [seedFrom, sumQty]

lemma buildEntry_price (first : LineItem) (rest : List LineItem) :
    (buildEntry first rest).total_price_cents = sumPrice (first :: rest) := by
  rw [buildEntry, foldl_merge_price]
  simp [seedFrom, sumPrice]

lemma buildEntry_frame (first : LineItem) (rest : List LineItem) :
    (buildEntry first rest).cluster_name = first.cluster_name ∧
    (buildEntry first rest).group_name = first.group_name ∧
    (buildEntry first rest).sku = first.sku ∧
    (buildEntry first rest).unit = first.unit ∧
    (buildEntry first rest).unit_price_dollars = first.unit_price_dollars := by
  simpa [buildEntry, seedFrom] using foldl_merge_frame rest (seedFrom first)

lemma buildEntry_end (first : LineItem) (rest : List LineItem) :
    (buildEntry first rest).end_date =
      maxEndStr first.end_date (rest.map (fun it => it.end_date)) := by
  rw [buildEntry, foldl_merge_end]
  rfl

lemma buildEntry_end_ge (first : LineItem) (rest : List LineItem) :
    ∀ it ∈ (first :: rest), strLe it.end_date (buildEntry first rest).end_date := by
  intro it hit
  rw [buildEntry_end]
  cases hit with
  | head => exact maxEndStr_le_self _ _
  | tail _ hmem => exact maxEndStr_le_mem _ _ _ (List.mem_map_of_mem _ hmem)

lemma buildEntry_end_mem (first : LineItem) (rest : List LineItem) :
    ∃ it ∈ (first :: rest), (buildEntry first rest).end_date = it.end_date := by
  rw [buildEntry_end]
  cases maxEndStr_mem (rest.map (fun it => it.end_date)) first.end_date with
  | inl h => exact ⟨first, List.mem_cons_self _ _, h⟩
  | inr h =>
    obtain ⟨it, hit, heq⟩ := List.mem_map.mp h
    exact ⟨it, List.mem_cons_of_mem _ hit, heq.symm⟩

/-- A parse function failing on every string (all end dates unparsable). -/
def parseNone : String → Option Int := fun _ => none

/-- A parse function mapping every string to the instant `0`. -/
def parseZero : String → Option Int := fun _ => some 0

/-- First line item of the spec's end-to-end scenario. -/
def itemProd1 : LineItem :=
  { cluster_name := some ("prod")
    created := "2024-01-01T00:00:00Z"
    end_date := "2024-01-01T01:00:00Z"
    quantity := 5
    group_name := some ("group1")
    sku := "ATLAS_INSTANCE"
    start_date := "2024-01-01T00:00:00Z"
    total_price_cents := 500
    unit := "server hours"
    unit_price_dollars := 1 }

/-- Second line item of the spec's end-to-end scenario. -/
def itemProd2 : LineItem :=
  { cluster_name := some ("prod")
    created := "2024-01-01T00:00:00Z"
    end_date := "2024-01-01T02:00:00Z"
    quantity := 3
    group_name := some ("group1")
    sku := "ATLAS_INSTANCE"
    start_date := "2024-01-01T01:00:00Z"
    total_price_cents := 300
    unit := "server hours"
    unit_price_dollars := 1 }

/-- A line item with no cluster name (spec's cluster-absent scenario). -/
def supportItem : LineItem :=
  { cluster_name := none
    created := "2024-01-01T00:00:00Z"
    end_date := "2024-01-01T00:00:00Z"
    quantity := 1
    group_name := none
    sku := "SUPPORT"
    start_date := "2024-01-01T00:00:00Z"
    total_price_cents := 10000
    unit := "daily"
    unit_price_dollars := 100 }

/-- A rates entry with an hour-denominated unit (spec's rate example). -/
def gbEntry : Compressed :=
  { cluster_name := none
    quantity := 10
    group_name := none
    sku := "AWS_DATA_TRANSFER"
    total_price_cents := 2400
    unit := "GB hours"
    unit_price_dollars := 0
    end_date := "2024-01-01T00:00:00Z" }

/-- A rates entry with a day-denominated unit (spec's rate example). -/
def dailyEntry : Compressed :=
  { cluster_name := none
    quantity := 10
    group_name := none
    sku := "BACKUP"
    total_price_cents := 2400
    unit := "daily"
    unit_price_dollars := 0
    end_date := "2024-01-01T00:00:00Z" }

/-- A rates entry with zero quantity and positive price. -/
def zeroQtyEntry : Compressed :=
  { cluster_name := none
    quantity := 0
    group_name := none
    sku := "AWS_DATA_TRANSFER"
    total_price_cents := 2400
    unit := "GB hours"
    unit_price_dollars := 0
    end_date := "2024-01-01T00:00:00Z" }

/-- Key-collision pair: cluster "a" with sku "b_c". -/
def itemKeyA : LineItem :=
  { cluster_name := some ("a")
    created := "2024-01-01T00:00:00Z"
    end_date := "2024-01-01T00:00:00Z"
    quantity := 1
    group_name := none
    sku := "b_c"
    start_date := "2024-01-01T00:00:00Z"
    total_price_cents := 100
    unit := "server hours"
    unit_price_dollars := 1 }

/-- Key-collision pair: cluster "a_b" with sku "c". -/
def itemKeyB : LineItem :=
  { cluster_name := some ("a_b")
    created := "2024-01-01T00:00:00Z"
    end_date := "2024-01-01T00:00:00Z"
    quantity := 2
    group_name := none
    sku := "c"
    start_date := "2024-01-01T00:00:00Z"
    total_price_cents := 50
    unit := "server hours"
    unit_price_dollars := 1 }

/-- Claim C1: processing a line item whose key is already in the totals map
adds its quantity and total_price_cents onto the existing entry and replaces
the entry's end_date exactly when the item's end_date is strictly greater in
string-lexicographic order; consequently every totals entry carries the sums
of its contributing items' quantity and total_price_cents and the
lexicographic maximum of their end dates. -/
theorem claim_C1_totals_accumulation :
    (∀ (parse : String → Option Int) (now : Int) (maps : AggMap × AggMap)
       (item : LineItem) (c : Compressed),
       findEntry maps.1 (unitKey item) = some c →
       findEntry ((processItem parse now maps item).1) (unitKey item) =
         some { c with
                quantity := c.quantity + item.quantity
                total_price_cents := c.total_price_cents + item.total_price_cents
                end_date := if strGt item.end_date c.end_date then item.end_date
                            else c.end_date }) ∧
    (∀ (parse : String → Option Int) (now : Int) (items : List LineItem)
       (key : String) (c : Compressed),
       findEntry ((aggregate parse now items).1) key = some c →
       c.quantity = sumQty (contributing key items) ∧
       c.total_price_cents = sumPrice (contributing key items) ∧
       (∀ it ∈ contributing key items, strLe it.end_date c.end_date) ∧
       (∃ it ∈ contributing key items, c.end_date = it.end_date)) := by
  constructor
  · intro parse now maps item c hc
    rw [processItem_fst]
    have h := findEntry_addToMap_self maps.1 (unitKey item) item
    rw [hc] at h
    rw [h]
    rfl
  · intro parse now items key c hf
    obtain ⟨first, rest, hcon, hc⟩ :=
      keyed_findEntry_some (aggregate_totals_keyed parse now items) hf
    subst hc
    rw [hcon]
    exact ⟨buildEntry_quantity first rest, buildEntry_price first rest,
      buildEntry_end_ge first rest, buildEntry_end_mem first rest⟩

/-- Concrete instantiation of C1 at the spec's two-item scenario. -/
theorem claim_C1_witness :
    findEntry ((processItem parseZero 0
        ([(unitKey itemProd2, seedFrom itemProd1)], ([] : AggMap)) itemProd2).1)
      (unitKey itemProd2) =
      some { seedFrom itemProd1 with
             quantity := (seedFrom itemProd1).quantity + itemProd2.quantity
             total_price_cents :=
               (seedFrom itemProd1).total_price_cents + itemProd2.total_price_cents
             end_date := if strGt itemProd2.end_date (seedFrom itemProd1).end_date
                         then itemProd2.end_date
                         else (seedFrom itemProd1).end_date } ∧
    (mergeItem (seedFrom itemProd1) itemProd2).quantity =
      sumQty (contributing ("prod_ATLAS_INSTANCE") [itemProd1, itemProd2]) ∧
    (mergeItem (seedFrom itemProd1) itemProd2).total_price_cents =
      sumPrice (contributing ("prod_ATLAS_INSTANCE") [itemProd1, itemProd2]) ∧
    strLe itemProd1.end_date (mergeItem (seedFrom itemProd1) itemProd2).end_date := by
  refine ⟨?_, ?_, ?_, ?_⟩
  · exact claim_C1_totals_accumulation.1 parseZero 0 _ itemProd2 (seedFrom itemProd1) rfl
  · exact (claim_C1_totals_accumulation.2 parseZero 0 [itemProd1, itemProd2]
      ("prod_ATLAS_INSTANCE") (mergeItem (seedFrom itemProd1) itemProd2) rfl).1
  · exact (claim_C1_totals_accumulation.2 parseZero 0 [itemProd1, itemProd2]
      ("prod_ATLAS_INSTANCE") (mergeItem (seedFrom itemProd1) itemProd2) rfl).2.1
  · refine (claim_C1_totals_accumulation.2 parseZero 0 [itemProd1, itemProd2]
      ("prod_ATLAS_INSTANCE") (mergeItem (seedFrom itemProd1) itemProd2) rfl).2.2.1
      itemProd1 ?_
    rw [show contributing ("prod_ATLAS_INSTANCE") [itemProd1, itemProd2] =
      [itemProd1, itemProd2] from rfl]
    exact List.mem_cons_self _ _

/-- Claim C2: a line item is accumulated into the rates map exactly when its
end_date parses as RFC 3339 and now minus the parsed instant is strictly
below 30 hours; a parse failure, or an item exactly 30 hours old, leaves the
rates map untouched while the totals map still receives the item, and the
fold over the remaining items continues unchanged. -/
theorem claim_C2_rates_freshness :
    (∀ (parse : String → Option Int) (now : Int) (maps : AggMap × AggMap)
       (item : LineItem),
       (processItem parse now maps item).2 =
         if contributesToRates parse now item
         then addToMap maps.2 (unitKey item) item
         else maps.2) ∧
    (∀ (parse : String → Option Int) (now : Int) (item : LineItem),
       contributesToRates parse now item = true ↔
         ∃ t, parse item.end_date = some t ∧ now - t < hoursDuration 30) ∧
    (∀ (parse : String → Option Int) (now : Int) (maps : AggMap × AggMap)
       (item : LineItem), parse item.end_date = none →
       (processItem parse now maps item).2 = maps.2 ∧
       (processItem parse now maps item).1 = addToMap maps.1 (unitKey item) item) ∧
    (∀ (parse : String → Option Int) (now : Int) (maps : AggMap × AggMap)
       (item : LineItem) (t : Int), parse item.end_date = some t →
       now - t = hoursDuration 30 →
       (processItem parse now maps item).2 = maps.2 ∧
       (processItem parse now maps item).1 = addToMap maps.1 (unitKey item) item) ∧
    (∀ (parse : String → Option Int) (now : Int) (items more : List LineItem),
       aggregate parse now (items ++ more) =
         more.foldl (processItem parse now) (aggregate parse now items)) := by
  refine ⟨processItem_snd, ?_, ?_, ?_, ?_⟩
  · intro parse now item
    unfold contributesToRates
    cases hp : parse item.end_date with
    | none => simp
    | some t => simp
  · intro parse now maps item hp
    constructor
    · rw [processItem_snd]
      have hfalse : contributesToRates parse now item = false := by
        unfold contributesToRates
        rw [hp]
      simp [hfalse]
    · exact processItem_fst parse now maps item
  · intro parse now maps item t hp heq
    constructor
    · rw [processItem_snd]
      have hfalse : contributesToRates parse now item = false := by
        unfold contributesToRates
        rw [hp]
        show decide (now - t < hoursDuration 30) = false
        rw [heq]
        simp
      simp [hfalse]
    · exact processItem_fst parse now maps item
  · intro parse now items more
    simp [aggregate, List.foldl_append]

/-- Concrete instantiation of C2: an unparsable end date and an
exactly-30-hours-old end date are both excluded from rates while still
reaching totals, and a fresh end date passes the freshness test. -/
theorem claim_C2_witness :
    ((processItem parseNone 0 (([], []) : AggMap × AggMap) supportItem).2 = [] ∧
     (processItem parseNone 0 (([], []) : AggMap × AggMap) supportItem).1 =
       addToMap [] (unitKey supportItem) supportItem) ∧
    ((processItem parseZero (hoursDuration 30)
        (([], []) : AggMap × AggMap) supportItem).2 = [] ∧
     (processItem parseZero (hoursDuration 30)
        (([], []) : AggMap × AggMap) supportItem).1 =
       addToMap [] (unitKey supportItem) supportItem) ∧
    contributesToRates parseZero 0 supportItem = true := by
  refine ⟨?_, ?_, ?_⟩
  · exact claim_C2_rates_freshness.2.2.1 parseNone 0 ([], []) supportItem rfl
  · exact claim_C2_rates_freshness.2.2.2.1 parseZero (hoursDuration 30)
      ([], []) supportItem 0 rfl (by simp)
  · exact (claim_C2_rates_freshness.2.1 parseZero 0 supportItem).mpr
      ⟨0, rfl, by norm_num [hoursDuration]⟩

/-- Claim C3: after an aggregation pass, every key present in the rates map
is also present in the totals map. -/
theorem claim_C3_rates_subset_totals
    (parse : String → Option Int) (now : Int) (items : List LineItem)
    (key : String) (c : Compressed)
    (h : findEntry ((aggregate parse now items).2) key = some c) :
    ∃ c2, findEntry ((aggregate parse now items).1) key = some c2 := by
  obtain ⟨first, rest, hcon, _⟩ :=
    keyed_findEntry_some (aggregate_rates_keyed parse now items) h
  have hmem : first ∈ contributing key (items.filter (contributesToRates parse now)) := by
    rw [hcon]
    exact List.mem_cons_self _ _
  unfold contributing at hmem
  rw [List.mem_filter] at hmem
  obtain ⟨hmem1, hkey⟩ := hmem
  rw [List.mem_filter] at hmem1
  have hin : first ∈ contributing key items := by
    unfold contributing
    rw [List.mem_filter]
    exact ⟨hmem1.1, hkey⟩
  cases hc : contributing key items with
  | nil =>
    rw [hc] at hin
    cases hin
  | cons f r =>
    exact ⟨buildEntry f r, ((aggregate_totals_keyed parse now items) key).2 f r hc⟩

/-- Concrete instantiation of C3: the fresh single-item invoice has its key
in rates, hence in totals. -/
theorem claim_C3_witness :
    ∃ c2, findEntry ((aggregate parseZero 0 [supportItem]).1) ("SUPPORT") = some c2 :=
  claim_C3_rates_subset_totals parseZero 0 [supportItem] ("SUPPORT")
    (seedFrom supportItem) rfl

lemma F64.div_fin_of_ne (a b : ℚ) (hb : b ≠ 0) :
    F64.div (F64.fin a) (F64.fin b) = F64.fin (a / b) := by
  simp [F64.div, hb]

lemma F64.div_fin_zero_pos (a : ℚ) (ha : 0 < a) :
    F64.div (F64.fin a) (F64.fin 0) = F64.inf := by
  simp [F64.div, ne_of_gt ha, ha]

lemma F64.div_zero_zero : F64.div (F64.fin 0) (F64.fin 0) = F64.nan := by
  simp [F64.div]

lemma F64.div_inf_nonneg (b : ℚ) (hb : 0 ≤ b) :
    F64.div F64.inf (F64.fin b) = F64.inf := by
  simp [F64.div, hb]

lemma F64.div_nan_fin (b : ℚ) : F64.div F64.nan (F64.fin b) = F64.nan := by
  simp [F64.div]

/-- Claim C4: every rates entry is published with rate total_price_cents /
quantity / 100 when its unit is "GB hours" or "server hours", and
additionally divided by 24 for any other unit; in particular 2400 cents over
quantity 10 gives 2.4 for "GB hours" and 0.1 for "daily". -/
theorem claim_C4_rate_formula :
    (∀ (m : AggMap) (kc : String × Compressed), kc ∈ m →
       (labelsOf kc.2, rateOf kc.2) ∈ publishRates m) ∧
    (∀ v : Compressed, v.quantity ≠ 0 →
       (v.unit = ("GB hours") ∨ v.unit = ("server hours")) →
       rateOf v = F64.fin ((v.total_price_cents : ℚ) / v.quantity / 100)) ∧
    (∀ v : Compressed, v.quantity ≠ 0 →
       ¬ (v.unit = ("GB hours") ∨ v.unit = ("server hours")) →
       rateOf v = F64.fin ((v.total_price_cents : ℚ) / v.quantity / 100 / 24)) ∧
    rateOf gbEntry = F64.fin ((12 : ℚ) / 5) ∧
    rateOf dailyEntry = F64.fin ((1 : ℚ) / 10) := by
  have hpart2 : ∀ v : Compressed, v.quantity ≠ 0 →
      (v.unit = ("GB hours") ∨ v.unit = ("server hours")) →
      rateOf v = F64.fin ((v.total_price_cents : ℚ) / v.quantity / 100) := by
    intro v hq hu
    rw [rateOf, if_pos hu, F64.div_fin_of_ne _ _ hq,
      F64.div_fin_of_ne _ _ (by norm_num : (100 : ℚ) ≠ 0)]
  have hpart3 : ∀ v : Compressed, v.quantity ≠ 0 →
      ¬ (v.unit = ("GB hours") ∨ v.unit = ("server hours")) →
      rateOf v = F64.fin ((v.total_price_cents : ℚ) / v.quantity / 100 / 24) := by
    intro v hq hu
    rw [rateOf, if_neg hu, F64.div_fin_of_ne _ _ hq,
      F64.div_fin_of_ne _ _ (by norm_num : (100 : ℚ) ≠ 0),
      F64.div_fin_of_ne _ _ (by norm_num : (24 : ℚ) ≠ 0)]
  refine ⟨?_, hpart2, hpart3, ?_, ?_⟩
  · intro m kc hkc
    exact List.mem_map_of_mem _ hkc
  · rw [hpart2 gbEntry (by norm_num [gbEntry]) (Or.inl rfl)]
    norm_num [gbEntry]
  · rw [hpart3 dailyEntry (by norm_num [dailyEntry]) (by decide)]
    norm_num [dailyEntry]

/-- Concrete instantiation of C4: emission of the gauge pair for a singleton
rates map, and the two unit branches at the spec's example numbers. -/
theorem claim_C4_witness :
    (labelsOf gbEntry, rateOf gbEntry) ∈
      publishRates [(("AWS_DATA_TRANSFER" : String), gbEntry)] ∧
    rateOf gbEntry = F64.fin ((gbEntry.total_price_cents : ℚ) / gbEntry.quantity / 100) ∧
    rateOf dailyEntry =
      F64.fin ((dailyEntry.total_price_cents : ℚ) / dailyEntry.quantity / 100 / 24) := by
  refine ⟨?_, ?_, ?_⟩
  · exact claim_C4_rate_formula.1 [(("AWS_DATA_TRANSFER" : String), gbEntry)]
      (("AWS_DATA_TRANSFER" : String), gbEntry) (List.mem_cons_self _ _)
  · exact claim_C4_rate_formula.2.1 gbEntry (by norm_num [gbEntry]) (Or.inl rfl)
  · exact claim_C4_rate_formula.2.2.1 dailyEntry (by norm_num [dailyEntry]) (by decide)

/-- Claim C5 counterexample: for a rates entry with quantity 0 and positive
total_price_cents the code emits a rate metric whose value is +infinity —
non-finite and nonzero — so the rate computation is NOT guarded in the way
the claim states (neither is the metric suppressed nor is a zero emitted). -/
theorem claim_C5_counterexample :
    zeroQtyEntry.quantity = 0 ∧
    publishRates [(("AWS_DATA_TRANSFER" : String), zeroQtyEntry)] =
      [((("", "", "AWS_DATA_TRANSFER") : String × String × String), F64.inf)] ∧
    F64.inf.isFinite = false ∧
    F64.inf ≠ F64.fin 0 := by
  refine ⟨rfl, ?_, rfl, by simp⟩
  have hrate : rateOf zeroQtyEntry = F64.inf := by
    rw [rateOf, if_pos (show zeroQtyEntry.unit = ("GB hours") ∨
      zeroQtyEntry.unit = ("server hours") from Or.inl rfl)]
    rw [show zeroQtyEntry.quantity = (0 : ℚ) from rfl]
    rw [F64.div_fin_zero_pos _ (by norm_num [zeroQtyEntry]),
      F64.div_inf_nonneg _ (by norm_num)]
  have hlabel : labelsOf zeroQtyEntry =
      (("", "", "AWS_DATA_TRANSFER") : String × String × String) := rfl
  simp [publishRates, hlabel, hrate]

/-- Claim C5 amended: the rate computation never crashes (it is a total
function), but it is not guarded against zero quantity: a rate metric is
emitted for every rates entry regardless, and for a zero-quantity entry its
value is non-finite (+infinity when total_price_cents is positive, NaN when
it is zero). -/
theorem claim_C5_unguarded_divzero :
    (∀ v : Compressed, v.quantity = 0 → 0 < v.total_price_cents →
       rateOf v = F64.inf) ∧
    (∀ v : Compressed, v.quantity = 0 → v.total_price_cents = 0 →
       rateOf v = F64.nan) ∧
    (∀ v : Compressed, v.quantity = 0 → (rateOf v).isFinite = false) ∧
    (∀ (m : AggMap) (kc : String × Compressed), kc ∈ m →
       (labelsOf kc.2, rateOf kc.2) ∈ publishRates m) := by
  have hpos : ∀ v : Compressed, v.quantity = 0 → 0 < v.total_price_cents →
      rateOf v = F64.inf := by
    intro v hq hp
    have hc : (0 : ℚ) < (v.total_price_cents : ℚ) := by exact_mod_cast hp
    rw [rateOf]
    by_cases hu : v.unit = ("GB hours") ∨ v.unit = ("server hours")
    · rw [if_pos hu, hq, F64.div_fin_zero_pos _ hc, F64.div_inf_nonneg _ (by norm_num)]
    · rw [if_neg hu, hq, F64.div_fin_zero_pos _ hc, F64.div_inf_nonneg _ (by norm_num),
        F64.div_inf_nonneg _ (by norm_num)]
  have hzero : ∀ v : Compressed, v.quantity = 0 → v.total_price_cents = 0 →
      rateOf v = F64.nan := by
    intro v hq hp
    have hc : ((v.total_price_cents : ℚ)) = 0 := by
      rw [hp]
      norm_num
    rw [rateOf]
    by_cases hu : v.unit = ("GB hours") ∨ v.unit = ("server hours")
    · rw [if_pos hu, hq, hc, F64.div_zero_zero, F64.div_nan_fin]
    · rw [if_neg hu, hq, hc, F64.div_zero_zero, F64.div_nan_fin, F64.div_nan_fin]
  refine ⟨hpos, hzero, ?_, ?_⟩
  · intro v hq
    cases Nat.eq_zero_or_pos v.total_price_cents with
    | inl h =>
      rw [hzero v hq h]
      rfl
    | inr h =>
      rw [hpos v hq h]
      rfl
  · intro m kc hkc
    exact List.mem_map_of_mem _ hkc

/-- Concrete instantiation of the amended C5 at the zero-quantity entry. -/
theorem claim_C5_unguarded_divzero_witness :
    rateOf zeroQtyEntry = F64.inf ∧
    (rateOf zeroQtyEntry).isFinite = false :=
  ⟨claim_C5_unguarded_divzero.1 zeroQtyEntry rfl (by norm_num [zeroQtyEntry]),
   claim_C5_unguarded_divzero.2.2.1 zeroQtyEntry rfl⟩

/-- Claim C6: each totals entry's quantity and total_price_cents are the
exact sums of the contributing items' fields, and these sums are independent
of the order in which the line items appear in the invoice. -/
theorem claim_C6_sums_exact_order_independent :
    (∀ (parse : String → Option Int) (now : Int) (items : List LineItem)
       (key : String) (c : Compressed),
       findEntry ((aggregate parse now items).1) key = some c →
       c.quantity = sumQty (contributing key items) ∧
       c.total_price_cents = sumPrice (contributing key items)) ∧
    (∀ (parse parse2 : String → Option Int) (now now2 : Int)
       (items items2 : List LineItem), items.Perm items2 →
       ∀ (key : String) (c c2 : Compressed),
         findEntry ((aggregate parse now items).1) key = some c →
         findEntry ((aggregate parse2 now2 items2).1) key = some c2 →
         c.quantity = c2.quantity ∧
         c.total_price_cents = c2.total_price_cents) := by
  have hpart1 : ∀ (parse : String → Option Int) (now : Int) (items : List LineItem)
      (key : String) (c : Compressed),
      findEntry ((aggregate parse now items).1) key = some c →
      c.quantity = sumQty (contributing key items) ∧
      c.total_price_cents = sumPrice (contributing key items) := by
    intro parse now items key c hf
    obtain ⟨first, rest, hcon, hc⟩ :=
      keyed_findEntry_some (aggregate_totals_keyed parse now items) hf
    subst hc
    rw [hcon]
    exact ⟨buildEntry_quantity first rest, buildEntry_price first rest⟩
  refine ⟨hpart1, ?_⟩
  intro parse parse2 now now2 items items2 hperm key c c2 hf hf2
  obtain ⟨hq, hp⟩ := hpart1 parse now items key c hf
  obtain ⟨hq2, hp2⟩ := hpart1 parse2 now2 items2 key c2 hf2
  have hpc : (contributing key items).Perm (contributing key items2) :=
    hperm.filter _
  constructor
  · rw [hq, hq2]
    simp only [sumQty]
    exact (hpc.map (fun it => it.quantity)).sum_eq
  · rw [hp, hp2]
    simp only [sumPrice]
    exact (hpc.map (fun it => it.total_price_cents)).sum_eq

/-- Concrete instantiation of C6 at the two-item scenario and its swap. -/
theorem claim_C6_witness :
    (mergeItem (seedFrom itemProd1) itemProd2).quantity =
      sumQty (contributing ("prod_ATLAS_INSTANCE") [itemProd1, itemProd2]) ∧
    (mergeItem (seedFrom itemProd1) itemProd2).quantity =
      (mergeItem (seedFrom itemProd2) itemProd1).quantity ∧
    (mergeItem (seedFrom itemProd1) itemProd2).total_price_cents =
      (mergeItem (seedFrom itemProd2) itemProd1).total_price_cents := by
  have hswap := claim_C6_sums_exact_order_independent.2 parseZero parseZero 0 0
    [itemProd1, itemProd2] [itemProd2, itemProd1]
    (List.Perm.swap itemProd2 itemProd1 []) ("prod_ATLAS_INSTANCE")
    (mergeItem (seedFrom itemProd1) itemProd2)
    (mergeItem (seedFrom itemProd2) itemProd1) rfl rfl
  refine ⟨?_, hswap.1, hswap.2⟩
  exact (claim_C6_sums_exact_order_independent.1 parseZero 0 [itemProd1, itemProd2]
    ("prod_ATLAS_INSTANCE") (mergeItem (seedFrom itemProd1) itemProd2) rfl).1

/-- Claim C7: merging into an existing entry only changes quantity,
total_price_cents and end_date; the descriptive fields unit, sku,
cluster_name, group_name and unit_price_dollars of any entry, in either map,
are those of the first line item inserted for its key. -/
theorem claim_C7_descriptive_fields_frozen :
    (∀ (c : Compressed) (item : LineItem),
       (mergeItem c item).unit = c.unit ∧
       (mergeItem c item).sku = c.sku ∧
       (mergeItem c item).cluster_name = c.cluster_name ∧
       (mergeItem c item).group_name = c.group_name ∧
       (mergeItem c item).unit_price_dollars = c.unit_price_dollars) ∧
    (∀ (parse : String → Option Int) (now : Int) (items : List LineItem)
       (key : String) (c : Compressed) (first : LineItem) (rest : List LineItem),
       contributing key items = first :: rest →
       findEntry ((aggregate parse now items).1) key = some c →
       c.unit = first.unit ∧ c.sku = first.sku ∧
       c.cluster_name = first.cluster_name ∧ c.group_name = first.group_name ∧
       c.unit_price_dollars = first.unit_price_dollars) ∧
    (∀ (parse : String → Option Int) (now : Int) (items : List LineItem)
       (key : String) (c : Compressed) (first : LineItem) (rest : List LineItem),
       contributing key (items.filter (contributesToRates parse now)) = first :: rest →
       findEntry ((aggregate parse now items).2) key = some c →
       c.unit = first.unit ∧ c.sku = first.sku ∧
       c.cluster_name = first.cluster_name ∧ c.group_name = first.group_name ∧
       c.unit_price_dollars = first.unit_price_dollars) := by
  refine ⟨?_, ?_, ?_⟩
  · intro c item
    exact ⟨rfl, rfl, rfl, rfl, rfl⟩
  · intro parse now items key c first rest hcon hf
    have hsome := ((aggregate_totals_keyed parse now items) key).2 first rest hcon
    rw [hsome] at hf
    injection hf with hf
    subst hf
    obtain ⟨h1, h2, h3, h4, h5⟩ := buildEntry_frame first rest
    exact ⟨h4, h3, h1, h2, h5⟩
  · intro parse now items key c first rest hcon hf
    have hsome := ((aggregate_rates_keyed parse now items) key).2 first rest hcon
    rw [hsome] at hf
    injection hf with hf
    subst hf
    obtain ⟨h1, h2, h3, h4, h5⟩ := buildEntry_frame first rest
    exact ⟨h4, h3, h1, h2, h5⟩

/-- Concrete instantiation of C7 in both maps. -/
theorem claim_C7_witness :
    (mergeItem (seedFrom itemProd1) itemProd2).unit = itemProd1.unit ∧
    (mergeItem (seedFrom itemProd1) itemProd2).cluster_name = itemProd1.cluster_name ∧
    (seedFrom supportItem).unit = supportItem.unit := by
  have h2 := claim_C7_descriptive_fields_frozen.2.1 parseZero 0 [itemProd1, itemProd2]
    ("prod_ATLAS_INSTANCE") (mergeItem (seedFrom itemProd1) itemProd2) itemProd1
    [itemProd2] rfl rfl
  have h3 := claim_C7_descriptive_fields_frozen.2.2 parseZero 0 [supportItem]
    ("SUPPORT") (seedFrom supportItem) supportItem [] rfl rfl
  exact ⟨h2.1, h2.2.2.1, h3.1⟩

/-- Claim C8: the grouping key is cluster_name concatenated to the sku with
an underscore when cluster_name is present, and the sku alone otherwise; a
single item with no cluster_name and sku SUPPORT is grouped under SUPPORT. -/
theorem claim_C8_unit_key :
    (∀ (item : LineItem) (e : String), item.cluster_name = some e →
       unitKey item = e ++ ("_") ++ item.sku) ∧
    (∀ item : LineItem, item.cluster_name = none → unitKey item = item.sku) ∧
    unitKey supportItem = ("SUPPORT") ∧
    findEntry ((aggregate parseNone 0 [supportItem]).1) ("SUPPORT") =
      some (seedFrom supportItem) := by
  refine ⟨?_, ?_, rfl, rfl⟩
  · intro item e h
    simp [unitKey, h]
  · intro item h
    simp [unitKey, h]

/-- Concrete instantiation of C8's two key-derivation branches. -/
theorem claim_C8_witness :
    unitKey itemProd1 = ("prod") ++ ("_") ++ itemProd1.sku ∧
    unitKey supportItem = supportItem.sku :=
  ⟨claim_C8_unit_key.1 itemProd1 ("prod") rfl,
   claim_C8_unit_key.2.1 supportItem rfl⟩

/-- Claim C9: the fetch status dispatch maps 404 to NotFound, 401 to
Unauthorized, 403 to Forbidden, 200 to success and everything else to
UnknownCode; when the fetch errs, the error is the result of the whole
get_metrics cycle and the aggregation (and hence its inputs) is never
consulted. -/
theorem claim_C9_status_dispatch :
    (∀ body : Nat, State.get 404 body = Except.error RestError.NotFound) ∧
    (∀ body : Nat, State.get 401 body = Except.error RestError.Unauthorized) ∧
    (∀ body : Nat, State.get 403 body = Except.error RestError.Forbidden) ∧
    (∀ body : Nat, State.get 200 body = Except.ok body) ∧
    (∀ (status body : Nat), status ≠ 404 → status ≠ 403 → status ≠ 401 →
       status ≠ 200 → State.get status body = Except.error RestError.UnknownCode) ∧
    (∀ (status body : Nat) (decode : Nat → Option Data)
       (parse : String → Option Int) (now : Int) (e : RestError),
       State.get status body = Except.error e →
       State.get_metrics parse now status body decode = Except.error e) ∧
    (∀ (status body : Nat) (decode decode2 : Nat → Option Data)
       (parse parse2 : String → Option Int) (now now2 : Int) (e : RestError),
       State.get status body = Except.error e →
       State.get_metrics parse now status body decode =
         State.get_metrics parse2 now2 status body decode2) := by
  refine ⟨fun _ => rfl, fun _ => rfl, fun _ => rfl, fun _ => rfl, ?_, ?_, ?_⟩
  · intro status body h1 h2 h3 h4
    unfold State.get
    rw [if_neg h1, if_neg h2, if_neg h3, if_neg h4]
  · intro status body decode parse now e hget
    unfold State.get_metrics State.get_pending
    rw [hget]
  · intro status body decode decode2 parse parse2 now now2 e hget
    unfold State.get_metrics State.get_pending
    rw [hget]

/-- Concrete instantiation of C9 at statuses 404 and 500. -/
theorem claim_C9_witness :
    State.get 404 (0 : Nat) = Except.error RestError.NotFound ∧
    State.get 500 (0 : Nat) = Except.error RestError.UnknownCode ∧
    State.get_metrics parseZero 0 500 (0 : Nat) (fun _ => none) =
      Except.error RestError.UnknownCode := by
  have h5 := claim_C9_status_dispatch.2.2.2.2.1 500 0
    (by decide) (by decide) (by decide) (by decide)
  exact ⟨claim_C9_status_dispatch.1 0, h5,
    claim_C9_status_dispatch.2.2.2.2.2.1 500 0 (fun _ => none) parseZero 0
      RestError.UnknownCode h5⟩

/-- Claim C10: the key derivation is not injective — cluster "a" with sku
"b_c" and cluster "a_b" with sku "c" both give key "a_b_c", and aggregation
merges the two distinct meters into a single totals entry. -/
theorem claim_C10_key_collision :
    unitKey itemKeyA = ("a_b_c") ∧
    unitKey itemKeyB = ("a_b_c") ∧
    itemKeyA.cluster_name ≠ itemKeyB.cluster_name ∧
    itemKeyA.sku ≠ itemKeyB.sku ∧
    (aggregate parseNone 0 [itemKeyA, itemKeyB]).1 =
      [(("a_b_c"), mergeItem (seedFrom itemKeyA) itemKeyB)] ∧
    (mergeItem (seedFrom itemKeyA) itemKeyB).total_price_cents =
      itemKeyA.total_price_cents + itemKeyB.total_price_cents := by
  refine ⟨rfl, rfl, by decide, by decide, ?_, rfl⟩
  rfl
